import Mathlib

/-!
Shallow embedding of the visual normalization pipeline of `src/agents/visual.py`
(class `ImageStandardizer`): `validate_image_quality` and
`normalize_for_marketplace`, together with the semantics of the Pillow
primitives the pipeline calls (`Image.paste` blending from Paste.c,
`Image.thumbnail` size selection, `ImageOps.expand`, JPEG save constraints).

Machine integers are modelled as `Nat`; Python true division in
`Image.thumbnail` is modelled with exact rationals (at every concrete input
used below the compared quantities are far apart, so IEEE doubles and exact
rationals agree). Fallible stages return `Option`; the orchestrator returns
`Except String`.
-/

namespace PIM

/-- One pixel, as the four 8-bit channels Pillow carries for an RGBA band
stack. Images whose mode has no alpha band are represented with `a = 255`,
and for a palette (`P`) image `r g b` are the palette-resolved colors. -/
structure Pix where
  r : Nat
  g : Nat
  b : Nat
  a : Nat
  deriving Repr, DecidableEq

/-- The closed set of color-mode tags the pipeline dispatches on
(`img.mode` in Pillow): RGB, RGBA, palette, CMYK, grayscale, anything else. -/
inductive Mode where
  | RGB
  | RGBA
  | P
  | CMYK
  | L
  | other
  deriving Repr, DecidableEq

/-- A decoded image: mode tag, pixel dimensions, and pixel lookup. -/
structure Img where
  mode : Mode
  width : Nat
  height : Nat
  px : Nat → Nat → Pix

/-- Pure white with full alpha, the value of `(255, 255, 255)` fill. -/
def whitePix : Pix := ⟨255, 255, 255, 255⟩

/-- Pillow's MULDIV255 macro from Paste.c: the exact integer approximation
of `a * b / 255` used when blending, `t = a*b+128; ((t >> 8) + t) >> 8`. -/
def muldiv255 (a b : Nat) : Nat :=
  ((a * b + 128) >>> 8 + (a * b + 128)) >>> 8

/-- Pillow's BLEND macro from Paste.c: blend channel `c1` (background) with
`c2` (source) under mask value `m`. -/
def blendc (m c1 c2 : Nat) : Nat :=
  muldiv255 c1 (255 - m) + muldiv255 c2 m

/-- `src/agents/visual.py` lines 55-58, the `force_white_background` branch:
`background = Image.new("RGB", img.size, (255, 255, 255))` followed by
`background.paste(img, mask=img.split()[3] if img.mode == 'RGBA' else None)`.
For RGBA the mask is the alpha band and Pillow blends per channel; for any
other mode the mask is `None` and the source is pasted with full coverage
(its channels, palette-resolved for `P`, overwrite the canvas; alpha and
palette transparency are not consulted). The result is the RGB background. -/
def pasteOnWhite (img : Img) : Img :=
  { mode := Mode.RGB
    width := img.width
    height := img.height
    px := fun x y =>
      let p := img.px x y
      match img.mode with
      | Mode.RGBA => ⟨blendc p.a 255 p.r, blendc p.a 255 p.g, blendc p.a 255 p.b, 255⟩
      | _ => ⟨p.r, p.g, p.b, 255⟩ }

/-- `img.convert("RGB")`: keep the color channels, drop any alpha. -/
def convertRGB (img : Img) : Img :=
  { img with
    mode := Mode.RGB
    px := fun x y =>
      let p := img.px x y
      ⟨p.r, p.g, p.b, 255⟩ }

/-- Stage 1 of `normalize_for_marketplace` (lines 50-60): color management.
`CMYK` goes through `ImageCms.profileToProfile(..., outputMode="RGB")`,
modelled by the process-wide profile transform `icc` (`none` when the ICC
profiles are unavailable, in which case the stage raises). `P` and `RGBA`
are composited onto white when `force_white_background`, else converted
directly to RGB. Every other mode (RGB, grayscale `L`, anything else) falls
through this `if/elif` chain unchanged. -/
def colorNormalize (icc : Option (Pix → Pix)) (fwb : Bool) (img : Img) : Option Img :=
  match img.mode with
  | Mode.CMYK =>
      icc.map fun f =>
        { img with mode := Mode.RGB, px := fun x y => f (img.px x y) }
  | Mode.P =>
      if fwb then some (pasteOnWhite img) else some (convertRGB img)
  | Mode.RGBA =>
      if fwb then some (pasteOnWhite img) else some (convertRGB img)
  | _ => some img

/-- Pillow's `round_aspect` helper inside `Image.thumbnail`:
`max(min(math.floor(number), math.ceil(number), key=key), 1)` — pick the
floor or the ceiling of the scaled value, whichever has the smaller key
(the floor on ties, since Python's `min` keeps the first argument), and
never go below 1. -/
@[irreducible] def roundAspect (q : ℚ) (key : Nat → ℚ) : Nat :=
  max (if key ⌈q⌉.toNat < key ⌊q⌋.toNat then ⌈q⌉.toNat else ⌊q⌋.toNat) 1

/-- The size selected by `Image.thumbnail(target, LANCZOS)` (Pillow's
`preserve_aspect_ratio`): if the image already fits inside the target on
both axes it is left unchanged; otherwise the limiting axis is set to the
target and the other axis is `round_aspect` of the proportionally scaled
value. Python evaluates `aspect = width / height` and then `x / y`, so a
zero height or zero target height raises (`none`); the comparison keys are
`abs(aspect - n / y)` and `0 if n == 0 else abs(aspect - x / n)`. -/
def thumbnailSize (w h tx ty : Nat) : Option (Nat × Nat) :=
  if w ≤ tx ∧ h ≤ ty then some (w, h)
  else if h = 0 then none
  else if ty = 0 then none
  else if (w : ℚ) / (h : ℚ) ≤ (tx : ℚ) / (ty : ℚ) then
    some (roundAspect ((ty : ℚ) * ((w : ℚ) / (h : ℚ)))
      (fun n => |(w : ℚ) / (h : ℚ) - (n : ℚ) / (ty : ℚ)|), ty)
  else
    some (tx, roundAspect ((tx : ℚ) / ((w : ℚ) / (h : ℚ)))
      (fun n => if n = 0 then 0 else |(w : ℚ) / (h : ℚ) - (tx : ℚ) / (n : ℚ)|))

/-- A resampling filter: given the source image and the new width and
height, the pixels of the resized image. The pipeline instantiates it with
Lanczos; no claim depends on the filter's pixel arithmetic, so the pipeline
is parameterized over it. -/
def Resample : Type := Img → Nat → Nat → Nat → Nat → Pix

/-- Stage 2 of `normalize_for_marketplace` (line 63):
`img.thumbnail(target_size, Image.Resampling.LANCZOS)`. Shrinks in place to
`thumbnailSize`, resampling only when the size actually changes; the mode is
preserved. -/
def thumbnailIm (rs : Resample) (img : Img) (tx ty : Nat) : Option Img :=
  (thumbnailSize img.width img.height tx ty).map fun s =>
    if s = (img.width, img.height) then img
    else { mode := img.mode, width := s.1, height := s.2, px := rs img s.1 s.2 }

/-- Stage 3 of `normalize_for_marketplace` (lines 66-78): the border tuple
`(delta_w // 2, delta_h // 2, delta_w - delta_w // 2, delta_h - delta_h // 2)`
passed to `ImageOps.expand`, read as `(left, top, right, bottom)`. -/
def paddingOf (tx ty w h : Nat) : Nat × Nat × Nat × Nat :=
  let dw := tx - w
  let dh := ty - h
  (dw / 2, dh / 2, dw - dw / 2, dh - dh / 2)

/-- `ImageOps.expand(img, border, fill="white")`: a new canvas of the
enlarged size in the same mode, filled white, with the source pasted at
`(left, top)`. -/
def expand (img : Img) (left top right bottom : Nat) : Img :=
  { mode := img.mode
    width := left + img.width + right
    height := top + img.height + bottom
    px := fun x y =>
      if left ≤ x ∧ x < left + img.width ∧ top ≤ y ∧ y < top + img.height
      then img.px (x - left) (y - top)
      else whitePix }

/-- The encoded output: the container format, the fixed save options from
lines 84-91 (`quality=92, optimize=True, subsampling=0`), and the final
pixel buffer the encoder serialized. Two runs that reach `save` with equal
values of these fields produce byte-identical streams, so this structure
stands for the returned bytes. -/
structure Encoded where
  format : String
  quality : Nat
  optimize : Bool
  subsampling : Nat
  image : Img

/-- The raw modes Pillow's JPEG plugin can save among the modes of this
development (`RAWMODE` in JpegImagePlugin: "1", "L", "RGB", "RGBX",
"CMYK", "YCbCr"); saving any other mode raises. -/
def jpegSavable : Mode → Bool
  | Mode.L => true
  | Mode.RGB => true
  | Mode.CMYK => true
  | _ => false

/-- Stage 4 (lines 83-91): `new_img.save(output, format=output_format,
quality=92, optimize=True, subsampling=0)`. Saving raises on an empty
image or, for JPEG, on a mode outside `RAWMODE`. -/
def encode (format : String) (img : Img) : Option Encoded :=
  if img.width = 0 ∨ img.height = 0 then none
  else if format = "JPEG" ∧ jpegSavable img.mode = false then none
  else some ⟨format, 92, true, 0, img⟩

/-- The keyword parameters of `normalize_for_marketplace`. -/
structure Params where
  target : Nat × Nat
  outputFormat : String
  forceWhiteBackground : Bool
  deriving Repr

/-- The declared defaults: `target_size=(2500, 2500), output_format="JPEG",
force_white_background=True`. -/
def defaultParams : Params := ⟨(2500, 2500), "JPEG", true⟩

/-- The process-wide read-only resources the pipeline consults: the ICC
profile transform for CMYK (absent when the profile files cannot be
loaded) and the resampling filter. -/
structure Ctx where
  icc : Option (Pix → Pix)
  resample : Resample

/-- The message of the single `ValueError` raised at line 95. -/
def errMsg : String := "Image processing failed due to technical error."

/-- Stage 3 applied to the scaled image: `ImageOps.expand(img, padding,
fill="white")` with the border quadruple computed at lines 67-77. -/
def composite (tx ty : Nat) (img : Img) : Img :=
  expand img (paddingOf tx ty img.width img.height).1
    (paddingOf tx ty img.width img.height).2.1
    (paddingOf tx ty img.width img.height).2.2.1
    (paddingOf tx ty img.width img.height).2.2.2

/-- The `try` body of `normalize_for_marketplace` after `Image.open`:
color-normalize, thumbnail, pad to the exact target, encode. `none` when
any stage raises. -/
def pipelineCore (ctx : Ctx) (p : Params) (img : Img) : Option Encoded :=
  (colorNormalize ctx.icc p.forceWhiteBackground img).bind fun img1 =>
  (thumbnailIm ctx.resample img1 p.target.1 p.target.2).bind fun img2 =>
  encode p.outputFormat (composite p.target.1 p.target.2 img2)

/-- `ImageStandardizer.normalize_for_marketplace` (lines 30-95). The input
byte stream enters as its decode outcome: `Image.open` either fails
(`none`, for a malformed stream) or yields a decoded image. Every failure
anywhere in the `try` block is caught by the bare `except Exception` and
re-raised as `ValueError(errMsg)`; otherwise the encoded bytes are
returned. -/
def normalize_for_marketplace (ctx : Ctx) (decoded : Option Img) (p : Params) :
    Except String Encoded :=
  match decoded.bind (pipelineCore ctx p) with
  | none => Except.error errMsg
  | some e => Except.ok e

/-- `ImageStandardizer.validate_image_quality` (lines 22-28): `w, h =
image.size; if w < min_resolution[0] or h < min_resolution[1]: return
False; return True`. A total function — the Python body can only read the
size tuple and log, so it never raises. -/
def validate_image_quality (w h minW minH : Nat) : Bool :=
  if w < minW ∨ h < minH then false else true

/-- Modelled from the spec (§4.3, claim C6's floor-based reading), not from
the source: the size rule in which the non-limiting axis is the floor of
the proportionally scaled value. Stated only to compare with
`thumbnailSize`. -/
def floorScaledSize (w h tx ty : Nat) : Option (Nat × Nat) :=
  if w ≤ tx ∧ h ≤ ty then some (w, h)
  else if h = 0 then none
  else if ty = 0 then none
  else if (w : ℚ) / (h : ℚ) ≤ (tx : ℚ) / (ty : ℚ) then
    some (⌊(ty : ℚ) * ((w : ℚ) / (h : ℚ))⌋.toNat, ty)
  else
    some (tx, ⌊(tx : ℚ) / ((w : ℚ) / (h : ℚ))⌋.toNat)

/-! ### Helper lemmas -/

lemma muldiv255_zero (c : Nat) : muldiv255 c 0 = 0 := by
  simp [muldiv255]

lemma blendc_zero_white (c : Nat) : blendc 0 255 c = 255 := by
  simp [blendc, muldiv255]

lemma pasteOnWhite_white {img : Img} (hm : img.mode = Mode.RGBA) (x y : Nat)
    (ha : (img.px x y).a = 0) : (pasteOnWhite img).px x y = whitePix := by
  simp only [pasteOnWhite, hm, ha, blendc_zero_white, whitePix]

lemma pasteOnWhite_alpha (img : Img) (x y : Nat) :
    ((pasteOnWhite img).px x y).a = 255 := by
  simp only [pasteOnWhite]
  cases img.mode <;> rfl

lemma colorNormalize_passthrough {icc : Option (Pix → Pix)} {fwb : Bool} {img : Img}
    (h1 : img.mode ≠ Mode.CMYK) (h2 : img.mode ≠ Mode.P) (h3 : img.mode ≠ Mode.RGBA) :
    colorNormalize icc fwb img = some img := by
  unfold colorNormalize
  cases hm : img.mode
  case CMYK => exact absurd hm h1
  case P => exact absurd hm h2
  case RGBA => exact absurd hm h3
  all_goals rfl

lemma colorNormalize_composite {icc : Option (Pix → Pix)} {img : Img}
    (h : img.mode = Mode.P ∨ img.mode = Mode.RGBA) :
    colorNormalize icc true img = some (pasteOnWhite img) := by
  unfold colorNormalize
  rcases h with h | h <;> rw [h] <;> rfl

lemma colorNormalize_convert {icc : Option (Pix → Pix)} {img : Img}
    (h : img.mode = Mode.P ∨ img.mode = Mode.RGBA) :
    colorNormalize icc false img = some (convertRGB img) := by
  unfold colorNormalize
  rcases h with h | h <;> rw [h] <;> rfl

lemma colorNormalize_cmyk {icc : Option (Pix → Pix)} {fwb : Bool} {img img1 : Img}
    (hm : img.mode = Mode.CMYK) (h : colorNormalize icc fwb img = some img1) :
    ∃ f, icc = some f ∧
      img1 = { img with mode := Mode.RGB, px := fun x y => f (img.px x y) } := by
  unfold colorNormalize at h
  rw [hm] at h
  cases icc with
  | none => exact absurd h (by simp)
  | some f =>
    simp only [Option.map_some'] at h
    injection h with h
    exact ⟨f, rfl, h.symm⟩

lemma colorNormalize_dims {icc : Option (Pix → Pix)} {fwb : Bool} {img img1 : Img}
    (h : colorNormalize icc fwb img = some img1) :
    img1.width = img.width ∧ img1.height = img.height := by
  cases hm : img.mode
  case CMYK =>
    obtain ⟨f, _, hEq⟩ := colorNormalize_cmyk hm h
    rw [hEq]
    exact ⟨rfl, rfl⟩
  case P =>
    cases fwb with
    | true =>
      rw [colorNormalize_composite (Or.inl hm)] at h
      injection h with h; rw [← h]; exact ⟨rfl, rfl⟩
    | false =>
      rw [colorNormalize_convert (Or.inl hm)] at h
      injection h with h; rw [← h]; exact ⟨rfl, rfl⟩
  case RGBA =>
    cases fwb with
    | true =>
      rw [colorNormalize_composite (Or.inr hm)] at h
      injection h with h; rw [← h]; exact ⟨rfl, rfl⟩
    | false =>
      rw [colorNormalize_convert (Or.inr hm)] at h
      injection h with h; rw [← h]; exact ⟨rfl, rfl⟩
  all_goals
    rw [colorNormalize_passthrough (by simp [hm]) (by simp [hm]) (by simp [hm])] at h
    injection h with h
    rw [← h]
    exact ⟨rfl, rfl⟩

lemma colorNormalize_mode {icc : Option (Pix → Pix)} {fwb : Bool} {img img1 : Img}
    (h : colorNormalize icc fwb img = some img1) :
    img1.mode = Mode.RGB ∨
      (img1 = img ∧ (img.mode = Mode.RGB ∨ img.mode = Mode.L ∨ img.mode = Mode.other)) := by
  cases hm : img.mode
  case CMYK =>
    obtain ⟨f, _, hEq⟩ := colorNormalize_cmyk hm h
    rw [hEq]
    exact Or.inl rfl
  case P =>
    cases fwb with
    | true =>
      rw [colorNormalize_composite (Or.inl hm)] at h
      injection h with h; rw [← h]; exact Or.inl rfl
    | false =>
      rw [colorNormalize_convert (Or.inl hm)] at h
      injection h with h; rw [← h]; exact Or.inl rfl
  case RGBA =>
    cases fwb with
    | true =>
      rw [colorNormalize_composite (Or.inr hm)] at h
      injection h with h; rw [← h]; exact Or.inl rfl
    | false =>
      rw [colorNormalize_convert (Or.inr hm)] at h
      injection h with h; rw [← h]; exact Or.inl rfl
  case RGB =>
    rw [colorNormalize_passthrough (by simp [hm]) (by simp [hm]) (by simp [hm])] at h
    injection h with h
    exact Or.inr ⟨h.symm, Or.inl rfl⟩
  case L =>
    rw [colorNormalize_passthrough (by simp [hm]) (by simp [hm]) (by simp [hm])] at h
    injection h with h
    exact Or.inr ⟨h.symm, Or.inr (Or.inl rfl)⟩
  case other =>
    rw [colorNormalize_passthrough (by simp [hm]) (by simp [hm]) (by simp [hm])] at h
    injection h with h
    exact Or.inr ⟨h.symm, Or.inr (Or.inr rfl)⟩

lemma roundAspect_cases (q : ℚ) (key : Nat → ℚ) :
    roundAspect q key = max ⌊q⌋.toNat 1 ∨ roundAspect q key = max ⌈q⌉.toNat 1 := by
  rw [roundAspect]
  split
  · exact Or.inr rfl
  · exact Or.inl rfl

lemma roundAspect_le {n : Nat} (q : ℚ) (key : Nat → ℚ) (h1 : 1 ≤ n)
    (h2 : ⌈q⌉ ≤ (n : ℤ)) : roundAspect q key ≤ n := by
  have hfc : ⌊q⌋ ≤ ⌈q⌉ := Int.floor_le_ceil q
  have hf : ⌊q⌋.toNat ≤ n := by omega
  have hc : ⌈q⌉.toNat ≤ n := by omega
  rw [roundAspect]
  split
  · exact max_le hc h1
  · exact max_le hf h1

lemma thumbnailSize_fits {w h tx ty : Nat} (h1 : w ≤ tx) (h2 : h ≤ ty) :
    thumbnailSize w h tx ty = some (w, h) := by
  rw [thumbnailSize, if_pos ⟨h1, h2⟩]

lemma thumbnailSize_le {w h tx ty : Nat} {s : Nat × Nat} (hw : 0 < w) (hh : 0 < h)
    (hs : thumbnailSize w h tx ty = some s) : s.1 ≤ tx ∧ s.2 ≤ ty := by
  rw [thumbnailSize] at hs
  by_cases hfit : w ≤ tx ∧ h ≤ ty
  · rw [if_pos hfit] at hs
    injection hs with hs
    rw [← hs]
    exact hfit
  · rw [if_neg hfit] at hs
    by_cases hh0 : h = 0
    · rw [if_pos hh0] at hs
      exact absurd hs (by simp)
    · rw [if_neg hh0] at hs
      by_cases hty0 : ty = 0
      · rw [if_pos hty0] at hs
        exact absurd hs (by simp)
      · rw [if_neg hty0] at hs
        have hwq : (0 : ℚ) < (w : ℚ) := by exact_mod_cast hw
        have hhq : (0 : ℚ) < (h : ℚ) := by exact_mod_cast hh
        have htyq : (0 : ℚ) < (ty : ℚ) := by exact_mod_cast Nat.pos_of_ne_zero hty0
        have haspos : (0 : ℚ) < (w : ℚ) / (h : ℚ) := by positivity
        by_cases hasp : (w : ℚ) / (h : ℚ) ≤ (tx : ℚ) / (ty : ℚ)
        · rw [if_pos hasp] at hs
          injection hs with hs
          rw [← hs]
          refine ⟨?_, le_refl ty⟩
          have htx : (0 : ℚ) < (tx : ℚ) := by
            by_contra hc
            push_neg at hc
            have hd : (tx : ℚ) / (ty : ℚ) ≤ 0 :=
              div_nonpos_of_nonpos_of_nonneg hc (le_of_lt htyq)
            exact absurd (lt_of_lt_of_le haspos (le_trans hasp hd)) (lt_irrefl 0)
          have htx1 : 1 ≤ tx := by exact_mod_cast htx
          apply roundAspect_le _ _ htx1
          rw [Int.ceil_le]
          push_cast
          calc (ty : ℚ) * ((w : ℚ) / (h : ℚ)) ≤ (ty : ℚ) * ((tx : ℚ) / (ty : ℚ)) :=
                mul_le_mul_of_nonneg_left hasp (le_of_lt htyq)
            _ = (tx : ℚ) := by field_simp
        · rw [if_neg hasp] at hs
          push_neg at hasp
          injection hs with hs
          rw [← hs]
          refine ⟨le_refl tx, ?_⟩
          have hty1 : 1 ≤ ty := Nat.pos_of_ne_zero hty0
          apply roundAspect_le _ _ hty1
          rw [Int.ceil_le]
          push_cast
          have hlt : (tx : ℚ) < (w : ℚ) / (h : ℚ) * (ty : ℚ) := (div_lt_iff₀ htyq).mp hasp
          rw [div_le_iff₀ haspos]
          calc (tx : ℚ) ≤ (w : ℚ) / (h : ℚ) * (ty : ℚ) := le_of_lt hlt
            _ = (ty : ℚ) * ((w : ℚ) / (h : ℚ)) := by ring

lemma thumbnailIm_spec {rs : Resample} {img img2 : Img} {tx ty : Nat}
    (h : thumbnailIm rs img tx ty = some img2) :
    img2.mode = img.mode ∧
      thumbnailSize img.width img.height tx ty = some (img2.width, img2.height) := by
  unfold thumbnailIm at h
  cases hs : thumbnailSize img.width img.height tx ty with
  | none => rw [hs] at h; exact absurd h (by simp)
  | some s =>
    rw [hs] at h
    simp only [Option.map_some'] at h
    injection h with h
    by_cases hcase : s = (img.width, img.height)
    · rw [if_pos hcase] at h
      rw [← h, hcase]
      exact ⟨rfl, rfl⟩
    · rw [if_neg hcase] at h
      rw [← h]
      exact ⟨rfl, rfl⟩

lemma encode_some {format : String} {img : Img} {e : Encoded}
    (h : encode format img = some e) :
    e = ⟨format, 92, true, 0, img⟩ := by
  unfold encode at h
  by_cases h1 : img.width = 0 ∨ img.height = 0
  · rw [if_pos h1] at h
    exact absurd h (by simp)
  · rw [if_neg h1] at h
    by_cases h2 : format = "JPEG" ∧ jpegSavable img.mode = false
    · rw [if_pos h2] at h
      exact absurd h (by simp)
    · rw [if_neg h2] at h
      injection h with h
      exact h.symm

lemma composite_mode (tx ty : Nat) (img : Img) :
    (composite tx ty img).mode = img.mode := rfl

lemma composite_dims {tx ty : Nat} (img : Img) (h1 : img.width ≤ tx)
    (h2 : img.height ≤ ty) :
    (composite tx ty img).width = tx ∧ (composite tx ty img).height = ty := by
  unfold composite expand paddingOf
  constructor <;> simp only [] <;> omega

lemma pipelineCore_eq {ctx : Ctx} {p : Params} {img : Img} {e : Encoded}
    (h : pipelineCore ctx p img = some e) :
    ∃ img1 img2,
      colorNormalize ctx.icc p.forceWhiteBackground img = some img1 ∧
      thumbnailIm ctx.resample img1 p.target.1 p.target.2 = some img2 ∧
      encode p.outputFormat (composite p.target.1 p.target.2 img2) = some e := by
  unfold pipelineCore at h
  cases h1 : colorNormalize ctx.icc p.forceWhiteBackground img with
  | none => rw [h1] at h; exact absurd h (by simp)
  | some img1 =>
    rw [h1] at h
    simp only [Option.some_bind'] at h
    cases h2 : thumbnailIm ctx.resample img1 p.target.1 p.target.2 with
    | none => rw [h2] at h; exact absurd h (by simp)
    | some img2 =>
      rw [h2] at h
      simp only [Option.some_bind'] at h
      exact ⟨img1, img2, rfl, h2, h⟩

lemma pipelineCore_dims {ctx : Ctx} {p : Params} {img : Img} {e : Encoded}
    (hw : 0 < img.width) (hh : 0 < img.height)
    (h : pipelineCore ctx p img = some e) :
    e.image.width = p.target.1 ∧ e.image.height = p.target.2 := by
  obtain ⟨img1, img2, h1, h2, h3⟩ := pipelineCore_eq h
  obtain ⟨d1, d2⟩ := colorNormalize_dims h1
  obtain ⟨hm, hts⟩ := thumbnailIm_spec h2
  have hle := thumbnailSize_le (by omega) (by omega) hts
  simp only at hle
  have hcd := composite_dims img2 hle.1 hle.2
  have he := encode_some h3
  rw [he]
  exact hcd

/-! ### Concrete instances used in scenario proofs and witnesses -/

/-- A solid image of the given mode and size (opaque dark pixel). -/
def solidImg (m : Mode) (w h : Nat) : Img :=
  ⟨m, w, h, fun _ _ => ⟨10, 20, 30, 255⟩⟩

/-- A fully transparent RGBA image of the given size. -/
def alphaImg (w h : Nat) : Img :=
  ⟨Mode.RGBA, w, h, fun _ _ => ⟨10, 20, 30, 0⟩⟩

/-- A concrete process context: an identity profile transform and a
constant-black resampling filter (their values never matter below). -/
def ctx0 : Ctx :=
  ⟨some (fun p => p), fun _ _ _ _ _ => ⟨0, 0, 0, 255⟩⟩

lemma thumbnailSize_3000_1000 :
    thumbnailSize 3000 1000 2500 2500 = some (2500, 833) := by
  have hcl : (⌈(2500 : ℚ) / 3⌉ : ℤ) = 834 := by
    rw [Int.ceil_eq_iff]
    norm_num
  have t1 : Int.toNat 834 = 834 := rfl
  have t2 : Int.toNat 833 = 833 := rfl
  have a1 : |(1 : ℚ) / 417| = 1 / 417 := abs_of_nonneg (by norm_num)
  have a2 : |(1 : ℚ) / 833| = 1 / 833 := abs_of_nonneg (by norm_num)
  simp only [thumbnailSize, roundAspect]
  norm_num [hcl, t1, t2, a1, a2]

lemma thumbnailSize_5000_1667 :
    thumbnailSize 5000 1667 2500 2500 = some (2500, 834) := by
  have hcl : (⌈(1667 : ℚ) / 2⌉ : ℤ) = 834 := by
    rw [Int.ceil_eq_iff]
    norm_num
  have t1 : Int.toNat 834 = 834 := rfl
  have t2 : Int.toNat 833 = 833 := rfl
  have a1 : |(1250 : ℚ) / 695139| = 1250 / 695139 := abs_of_nonneg (by norm_num)
  have a2 : |(2500 : ℚ) / 1388611| = 2500 / 1388611 := abs_of_nonneg (by norm_num)
  simp only [thumbnailSize, roundAspect]
  norm_num [hcl, t1, t2, a1, a2]

lemma floorScaledSize_5000_1667 :
    floorScaledSize 5000 1667 2500 2500 = some (2500, 833) := by
  have t2 : Int.toNat 833 = 833 := rfl
  simp only [floorScaledSize]
  norm_num [t2]

lemma expand_alpha {img : Img} (h : ∀ x y, ((img.px x y)).a = 255)
    (l t r b x y : Nat) : (((expand img l t r b).px x y)).a = 255 := by
  unfold expand
  simp only
  by_cases hin : l ≤ x ∧ x < l + img.width ∧ t ≤ y ∧ y < t + img.height
  · rw [if_pos hin]
    exact h _ _
  · rw [if_neg hin]
    rfl

lemma colorNormalize_fwb_indep {icc : Option (Pix → Pix)} {img : Img}
    (h2 : img.mode ≠ Mode.P) (h3 : img.mode ≠ Mode.RGBA) :
    colorNormalize icc true img = colorNormalize icc false img := by
  by_cases h1 : img.mode = Mode.CMYK
  · unfold colorNormalize
    rw [h1]
  · rw [colorNormalize_passthrough h1 h2 h3, colorNormalize_passthrough h1 h2 h3]

/-! ### Claims -/

/-- C7: `validate_image_quality` returns true iff both dimensions meet the
minimum (boundary equality passes, e.g. 1000x1000 against (1000,1000)); the
function is total, so it never raises. -/
theorem claim_C7 :
    (∀ w h minW minH,
      validate_image_quality w h minW minH = true ↔ (minW ≤ w ∧ minH ≤ h)) ∧
    validate_image_quality 1000 1000 1000 1000 = true := by
  constructor
  · intro w h minW minH
    unfold validate_image_quality
    by_cases hc : w < minW ∨ h < minH
    · rw [if_pos hc]
      constructor
      · intro hfalse
        exact absurd hfalse (by decide)
      · intro hand
        omega
    · rw [if_neg hc]
      push_neg at hc
      exact ⟨fun _ => ⟨hc.1, hc.2⟩, fun _ => rfl⟩
  · rfl

/-- C8: on an undecodable stream, and on any internal stage failure,
`normalize_for_marketplace` yields the single opaque error with the fixed
message (never a stage-specific error, never partial output); every run is
either a full success or that one failure. -/
theorem claim_C8 :
    (∀ ctx p, normalize_for_marketplace ctx none p = Except.error errMsg) ∧
    (∀ ctx decoded p,
      (∃ e, normalize_for_marketplace ctx decoded p = Except.ok e) ∨
      normalize_for_marketplace ctx decoded p = Except.error errMsg) := by
  constructor
  · intro ctx p
    rfl
  · intro ctx decoded p
    unfold normalize_for_marketplace
    cases hc : decoded.bind (pipelineCore ctx p) with
    | none => exact Or.inr rfl
    | some e => exact Or.inl ⟨e, rfl⟩

/-- C9: the pipeline is deterministic and stateless — it is a pure function
of the decoded input and the three parameters; two runs with equal inputs
and equal parameters return equal results (both the same bytes, or both the
same failure). -/
theorem claim_C9 :
    ∀ ctx d1 d2 p1 p2, d1 = d2 → p1.target = p2.target →
      p1.outputFormat = p2.outputFormat →
      p1.forceWhiteBackground = p2.forceWhiteBackground →
      normalize_for_marketplace ctx d1 p1 = normalize_for_marketplace ctx d2 p2 := by
  intro ctx d1 d2 p1 p2 hd ht ho hf
  cases p1
  cases p2
  simp only at ht ho hf
  subst hd
  subst ht
  subst ho
  subst hf
  rfl

theorem claim_C9_witness :
    normalize_for_marketplace ctx0 (some (solidImg Mode.RGB 100 100)) defaultParams =
    normalize_for_marketplace ctx0 (some (solidImg Mode.RGB 100 100)) defaultParams :=
  claim_C9 ctx0 _ _ _ _ rfl rfl rfl rfl

/-- C10: `force_white_background` is only read in the Palette/RGBA branch,
so for inputs of any other decoded mode the run is identical under both
flag values. -/
theorem claim_C10 :
    ∀ ctx (img : Img) target fmt, img.mode ≠ Mode.P → img.mode ≠ Mode.RGBA →
      normalize_for_marketplace ctx (some img) ⟨target, fmt, true⟩ =
      normalize_for_marketplace ctx (some img) ⟨target, fmt, false⟩ := by
  intro ctx img target fmt h2 h3
  unfold normalize_for_marketplace pipelineCore
  rw [Option.some_bind', Option.some_bind']
  dsimp only
  rw [colorNormalize_fwb_indep h2 h3]

theorem claim_C10_witness :
    normalize_for_marketplace ctx0 (some (solidImg Mode.RGB 100 100)) ⟨(2500, 2500), "JPEG", true⟩ =
    normalize_for_marketplace ctx0 (some (solidImg Mode.RGB 100 100)) ⟨(2500, 2500), "JPEG", false⟩ :=
  claim_C10 ctx0 (solidImg Mode.RGB 100 100) (2500, 2500) "JPEG" (by decide) (by decide)

/-- C1: every successful run returns an image of exactly the target
dimensions (default 2500x2500): the thumbnail step never exceeds the
target, and the padding step fills the remainder exactly. The positivity
hypotheses state that the decoded image has nonempty pixel data, which
`Image.open` guarantees. -/
theorem claim_C1 :
    ∀ ctx p (img : Img) e, 0 < img.width → 0 < img.height →
      normalize_for_marketplace ctx (some img) p = Except.ok e →
      e.image.width = p.target.1 ∧ e.image.height = p.target.2 := by
  intro ctx p img e hw hh hrun
  unfold normalize_for_marketplace at hrun
  rw [Option.some_bind'] at hrun
  cases hc : pipelineCore ctx p img with
  | none =>
      rw [hc] at hrun
      exact absurd hrun (by simp)
  | some e2 =>
      rw [hc] at hrun
      injection hrun with hrun
      rw [← hrun]
      exact pipelineCore_dims hw hh hc

theorem claim_C1_witness :
    0 < (solidImg Mode.RGB 100 100).width ∧ 0 < (solidImg Mode.RGB 100 100).height ∧
    ∃ e, normalize_for_marketplace ctx0 (some (solidImg Mode.RGB 100 100)) defaultParams =
        Except.ok e ∧ e.image.width = 2500 ∧ e.image.height = 2500 := by
  have hrun : normalize_for_marketplace ctx0 (some (solidImg Mode.RGB 100 100)) defaultParams =
      Except.ok ⟨"JPEG", 92, true, 0, composite 2500 2500 (solidImg Mode.RGB 100 100)⟩ := rfl
  have H := claim_C1 ctx0 defaultParams (solidImg Mode.RGB 100 100) _
    (by decide) (by decide) hrun
  exact ⟨by decide, by decide, _, hrun, H.1, H.2⟩

/-- C2 counterexample: a decoded grayscale (`L`) input is not converted to
RGB — the color-management chain has no branch for it — and the JPEG
encoder accepts mode `L`, so the pipeline succeeds and returns a grayscale
image, contradicting "any mode other than CMYK, Palette, RGBA, or RGB
undergoes a generic conversion to RGB". -/
theorem claim_C2_counterexample :
    (normalize_for_marketplace ctx0 (some (solidImg Mode.L 100 100)) defaultParams).map
      (fun e => (e.image.mode, e.image.width, e.image.height)) =
      Except.ok (Mode.L, 2500, 2500) ∧
    Mode.L ≠ Mode.RGB :=
  ⟨rfl, by decide⟩

/-- C2 amended: only CMYK, Palette and RGBA inputs are color-converted;
a decoded image of any other mode (RGB, grayscale, anything else) passes
through the color-normalization step entirely unchanged — there is no
generic conversion to RGB — so the color step yields an RGB image only for
the three converted modes, and otherwise preserves the source mode. -/
theorem claim_C2 :
    (∀ icc fwb (img : Img),
      img.mode = Mode.RGB ∨ img.mode = Mode.L ∨ img.mode = Mode.other →
      colorNormalize icc fwb img = some img) ∧
    (∀ icc fwb (img img1 : Img), colorNormalize icc fwb img = some img1 →
      img1.mode = Mode.RGB ∨ img1 = img) := by
  constructor
  · intro icc fwb img hmode
    rcases hmode with h | h | h <;>
      exact colorNormalize_passthrough (by simp [h]) (by simp [h]) (by simp [h])
  · intro icc fwb img img1 h
    rcases colorNormalize_mode h with h1 | ⟨h1, _⟩
    · exact Or.inl h1
    · exact Or.inr h1

theorem claim_C2_witness :
    ((solidImg Mode.L 100 100).mode = Mode.RGB ∨ (solidImg Mode.L 100 100).mode = Mode.L ∨
      (solidImg Mode.L 100 100).mode = Mode.other) ∧
    colorNormalize ctx0.icc true (solidImg Mode.L 100 100) = some (solidImg Mode.L 100 100) :=
  ⟨Or.inr (Or.inl rfl), claim_C2.1 ctx0.icc true (solidImg Mode.L 100 100) (Or.inr (Or.inl rfl))⟩

/-- C4: the padding split puts `delta // 2` on the left/top and the
remainder on the right/bottom, so an odd delta puts the extra pixel on the
right/bottom; scenario A: a 3000x1000 input against target (2500,2500) is
scaled to 2500x833 and padded with left 0, top 833, right 0, bottom 834. -/
theorem claim_C4 :
    ∀ tw th w h, w ≤ tw → h ≤ th →
      ((paddingOf tw th w h).1 = (tw - w) / 2 ∧
       (paddingOf tw th w h).2.1 = (th - h) / 2 ∧
       (paddingOf tw th w h).2.2.1 = (tw - w) - (tw - w) / 2 ∧
       (paddingOf tw th w h).2.2.2 = (th - h) - (th - h) / 2 ∧
       (Odd (tw - w) → (paddingOf tw th w h).2.2.1 = (paddingOf tw th w h).1 + 1) ∧
       (Odd (th - h) → (paddingOf tw th w h).2.2.2 = (paddingOf tw th w h).2.1 + 1) ∧
       (¬ Odd (tw - w) → (paddingOf tw th w h).2.2.1 = (paddingOf tw th w h).1) ∧
       (¬ Odd (th - h) → (paddingOf tw th w h).2.2.2 = (paddingOf tw th w h).2.1)) ∧
      (thumbnailSize 3000 1000 2500 2500 = some (2500, 833) ∧
       paddingOf 2500 2500 2500 833 = (0, 833, 0, 834)) := by
  intro tw th w h h1 h2
  refine ⟨⟨rfl, rfl, rfl, rfl, ?_, ?_, ?_, ?_⟩, thumbnailSize_3000_1000, rfl⟩
  · intro hodd
    obtain ⟨k, hk⟩ := hodd
    simp only [paddingOf]
    omega
  · intro hodd
    obtain ⟨k, hk⟩ := hodd
    simp only [paddingOf]
    omega
  · intro heven
    rw [Nat.not_odd_iff_even] at heven
    obtain ⟨k, hk⟩ := heven
    simp only [paddingOf]
    omega
  · intro heven
    rw [Nat.not_odd_iff_even] at heven
    obtain ⟨k, hk⟩ := heven
    simp only [paddingOf]
    omega

theorem claim_C4_witness :
    (2500 ≤ 2500 ∧ 833 ≤ 2500) ∧
    (paddingOf 2500 2500 2500 833).2.2.2 = (2500 - 833) - (2500 - 833) / 2 :=
  ⟨⟨le_refl 2500, by norm_num⟩,
    ((claim_C4 2500 2500 2500 833 (le_refl 2500) (by norm_num)).1).2.2.2.1⟩

/-- C5: the resize step only shrinks — an image already inside the target
box on both axes keeps its pixel dimensions; scenario B: a fully
transparent 500x500 RGBA input with `force_white_background` is not
rescaled, is padded by 1000 pixels on every side, and comes out as an
opaque 2500x2500 RGB image. -/
theorem claim_C5 :
    (∀ w h tx ty, w ≤ tx → h ≤ ty → thumbnailSize w h tx ty = some (w, h)) ∧
    (∃ e, normalize_for_marketplace ctx0 (some (alphaImg 500 500)) defaultParams =
        Except.ok e ∧
      e.image.mode = Mode.RGB ∧ e.image.width = 2500 ∧ e.image.height = 2500 ∧
      (∀ x y, (e.image.px x y).a = 255) ∧
      paddingOf 2500 2500 500 500 = (1000, 1000, 1000, 1000)) := by
  constructor
  · intro w h tx ty h1 h2
    exact thumbnailSize_fits h1 h2
  · refine ⟨⟨"JPEG", 92, true, 0, composite 2500 2500 (pasteOnWhite (alphaImg 500 500))⟩,
      rfl, rfl, rfl, rfl, ?_, rfl⟩
    intro x y
    exact expand_alpha (fun x2 y2 => pasteOnWhite_alpha (alphaImg 500 500) x2 y2) _ _ _ _ x y

theorem claim_C5_witness :
    (500 ≤ 2500) ∧ thumbnailSize 500 500 2500 2500 = some (500, 500) :=
  ⟨by norm_num, claim_C5.1 500 500 2500 2500 (by norm_num) (by norm_num)⟩


/-- C3: for Palette or RGBA inputs with `force_white_background`, the color
step composites onto an opaque white canvas of the same size — the RGBA
alpha band is the blend mask, a Palette source is pasted with full
coverage — so the result is RGB with no alpha and every fully transparent
RGBA pixel becomes pure white; with the flag off the step is a direct
`convert("RGB")` that discards alpha without blending. The final output of
a successful run on such inputs is mode RGB. -/
theorem claim_C3 :
    (∀ icc (img out : Img), (img.mode = Mode.P ∨ img.mode = Mode.RGBA) →
      colorNormalize icc true img = some out →
      out.mode = Mode.RGB ∧ out.width = img.width ∧ out.height = img.height ∧
      (∀ x y, (out.px x y).a = 255) ∧
      (img.mode = Mode.RGBA → ∀ x y, (img.px x y).a = 0 → out.px x y = whitePix) ∧
      (img.mode = Mode.P → ∀ x y,
        out.px x y = ⟨(img.px x y).r, (img.px x y).g, (img.px x y).b, 255⟩)) ∧
    (∀ icc (img : Img), (img.mode = Mode.P ∨ img.mode = Mode.RGBA) →
      colorNormalize icc false img = some (convertRGB img)) ∧
    (∀ ctx p (img : Img) e, (img.mode = Mode.P ∨ img.mode = Mode.RGBA) →
      p.forceWhiteBackground = true →
      normalize_for_marketplace ctx (some img) p = Except.ok e →
      e.image.mode = Mode.RGB) := by
  refine ⟨?_, ?_, ?_⟩
  · intro icc img out hm hc
    rw [colorNormalize_composite hm] at hc
    injection hc with hc
    rw [← hc]
    refine ⟨rfl, rfl, rfl, pasteOnWhite_alpha img, ?_, ?_⟩
    · intro hrgba x y ha
      exact pasteOnWhite_white hrgba x y ha
    · intro hp x y
      simp only [pasteOnWhite, hp]
  · intro icc img hm
    exact colorNormalize_convert hm
  · intro ctx p img e hm hfwb hrun
    unfold normalize_for_marketplace at hrun
    rw [Option.some_bind'] at hrun
    cases hc : pipelineCore ctx p img with
    | none =>
        rw [hc] at hrun
        exact absurd hrun (by simp)
    | some e2 =>
        rw [hc] at hrun
        injection hrun with hrun
        obtain ⟨img1, img2, h1, h2, h3⟩ := pipelineCore_eq hc
        rw [hfwb, colorNormalize_composite hm] at h1
        injection h1 with h1
        obtain ⟨hmode2, _⟩ := thumbnailIm_spec h2
        have he := encode_some h3
        rw [← hrun, he]
        show (composite p.target.1 p.target.2 img2).mode = Mode.RGB
        rw [composite_mode, hmode2, ← h1]
        rfl

theorem claim_C3_witness :
    ((alphaImg 2 2).mode = Mode.P ∨ (alphaImg 2 2).mode = Mode.RGBA) ∧
    (pasteOnWhite (alphaImg 2 2)).mode = Mode.RGB ∧
    (pasteOnWhite (alphaImg 2 2)).px 0 0 = whitePix := by
  have hmode : (alphaImg 2 2).mode = Mode.P ∨ (alphaImg 2 2).mode = Mode.RGBA := Or.inr rfl
  have H := claim_C3.1 none (alphaImg 2 2) (pasteOnWhite (alphaImg 2 2)) hmode
    (colorNormalize_composite hmode)
  exact ⟨hmode, H.1, H.2.2.2.2.1 rfl 0 0 rfl⟩

/-- C6 counterexample: `Image.thumbnail` does not round the non-limiting
axis down — it picks floor or ceiling, whichever best preserves the aspect
ratio. For a 5000x1667 input and target (2500,2500) the scaled height is
833.5 and the code selects 834 (the ceiling wins the aspect comparison),
while floor-based rounding yields 833. -/
theorem claim_C6_counterexample :
    thumbnailSize 5000 1667 2500 2500 = some (2500, 834) ∧
    floorScaledSize 5000 1667 2500 2500 = some (2500, 833) ∧
    ((2500, 834) : Nat × Nat) ≠ (2500, 833) :=
  ⟨thumbnailSize_5000_1667, floorScaledSize_5000_1667, by decide⟩

/-- C6 amended: the resize is deterministic (identical input and target
give identical dimensions), and the non-limiting axis is the floor or the
ceiling of the proportionally scaled value — whichever brings the aspect
ratio closest, floor on ties, clamped to at least 1 — not always the
floor. -/
theorem claim_C6 :
    ∀ w h tx ty x y, 0 < w → 0 < h → ¬(w ≤ tx ∧ h ≤ ty) →
      thumbnailSize w h tx ty = some (x, y) →
      ((∀ x2 y2, thumbnailSize w h tx ty = some (x2, y2) → x2 = x ∧ y2 = y) ∧
       (((w : ℚ) / (h : ℚ) ≤ (tx : ℚ) / (ty : ℚ) ∧ y = ty ∧
          (x = max ⌊(ty : ℚ) * ((w : ℚ) / (h : ℚ))⌋.toNat 1 ∨
           x = max ⌈(ty : ℚ) * ((w : ℚ) / (h : ℚ))⌉.toNat 1)) ∨
        (¬((w : ℚ) / (h : ℚ) ≤ (tx : ℚ) / (ty : ℚ)) ∧ x = tx ∧
          (y = max ⌊(tx : ℚ) / ((w : ℚ) / (h : ℚ))⌋.toNat 1 ∨
           y = max ⌈(tx : ℚ) / ((w : ℚ) / (h : ℚ))⌉.toNat 1)))) := by
  intro w h tx ty x y hw hh hfit hs
  constructor
  · intro x2 y2 hs2
    rw [hs] at hs2
    injection hs2 with hs2
    injection hs2 with hs2a hs2b
    exact ⟨hs2a.symm, hs2b.symm⟩
  · rw [thumbnailSize, if_neg hfit] at hs
    by_cases hh0 : h = 0
    · omega
    · rw [if_neg hh0] at hs
      by_cases hty0 : ty = 0
      · rw [if_pos hty0] at hs
        exact absurd hs (by simp)
      · rw [if_neg hty0] at hs
        by_cases hasp : (w : ℚ) / (h : ℚ) ≤ (tx : ℚ) / (ty : ℚ)
        · rw [if_pos hasp] at hs
          injection hs with hs
          injection hs with hs1 hs2
          refine Or.inl ⟨hasp, hs2.symm, ?_⟩
          rw [← hs1]
          exact roundAspect_cases _ _
        · rw [if_neg hasp] at hs
          injection hs with hs
          injection hs with hs1 hs2
          refine Or.inr ⟨hasp, hs1.symm, ?_⟩
          rw [← hs2]
          exact roundAspect_cases _ _

theorem claim_C6_witness :
    (0 < 5000 ∧ 0 < 1667 ∧ ¬(5000 ≤ 2500 ∧ 1667 ≤ 2500)) ∧ (2500 = 2500 ∧ 834 = 834) :=
  ⟨⟨by norm_num, by norm_num, by norm_num⟩,
    (claim_C6 5000 1667 2500 2500 2500 834 (by norm_num) (by norm_num) (by norm_num)
      thumbnailSize_5000_1667).1 2500 834 thumbnailSize_5000_1667⟩


end PIM
